import Mathlib

/-!
Verification of the training core of HandyDistributedRL (train.py).

Each definition below is a shallow embedding of a function or code block of
train.py; the doc comment of each definition names the source construct it
embeds.  Tensor-valued quantities whose operations are elementwise along the
non-time axes (values, importance ratios, targets, advantages) are modelled
as lists of rationals indexed by the time axis, one lane of the (T, B, P)
tensor; the backward recursions of vtrace() act only along time, so this is
faithful.
-/

namespace HandyRL

/- ---------------------------------------------------------------- -/
/- Generic list-indexing helper lemmas                              -/
/- ---------------------------------------------------------------- -/

theorem headD_eq_getD (l : List ℚ) : l.headD 0 = l.getD 0 0 := by
  cases l <;> rfl

theorem getD_map_q (f : ℚ → ℚ) (l : List ℚ) (t : Nat) (h : t < l.length) :
    (l.map f).getD t 0 = f (l.getD t 0) := by
  induction l generalizing t with
  | nil => simp at h
  | cons a l ih =>
    cases t with
    | zero => simp
    | succ t =>
      simp only [List.map_cons, List.getD_cons_succ]
      exact ih t (by simpa using h)

theorem getD_zipWith_q (f : ℚ → ℚ → ℚ) (as bs : List ℚ) (t : Nat)
    (ha : t < as.length) (hb : t < bs.length) :
    (List.zipWith f as bs).getD t 0 = f (as.getD t 0) (bs.getD t 0) := by
  induction as generalizing bs t with
  | nil => simp at ha
  | cons a as ih =>
    cases bs with
    | nil => simp at hb
    | cons b bs =>
      cases t with
      | zero => simp
      | succ t =>
        simp only [List.zipWith_cons_cons, List.getD_cons_succ]
        exact ih bs t (by simpa using ha) (by simpa using hb)

theorem getD_tail_q (l : List ℚ) (t : Nat) :
    (l.drop 1).getD t 0 = l.getD (t + 1) 0 := by
  cases l with
  | nil => simp
  | cons a l => simp

theorem getD_replicate_gen {β : Type} (a d : β) (n t : Nat) (h : t < n) :
    (List.replicate n a).getD t d = a := by
  induction n generalizing t with
  | zero => omega
  | succ n ih =>
    cases t with
    | zero => simp [List.replicate_succ]
    | succ t =>
      simp only [List.replicate_succ, List.getD_cons_succ]
      exact ih t (by omega)

theorem getD_map_range {β : Type} (d : β) (f : Nat → β) (n t : Nat) (h : t < n) :
    ((List.range n).map f).getD t d = f t := by
  induction n generalizing t with
  | zero => omega
  | succ n ih =>
    rcases Nat.lt_or_ge t n with h1 | h1
    · rw [List.range_succ, List.map_append,
        List.getD_append _ _ _ _ (by simpa using h1)]
      exact ih t h1
    · have ht : t = n := by omega
      subst ht
      rw [List.range_succ, List.map_append,
        List.getD_append_right _ _ _ _ (by simp)]
      simp

/-- One step of the append-with-return shift of vtrace():
torch.cat([xs[1:], returns]) read at index t equals torch.cat([xs, returns])
read at index t+1 (for t within range). -/
theorem getD_shift (l : List ℚ) (r : ℚ) (t : Nat) (h : t < l.length) :
    (l.drop 1 ++ [r]).getD t 0 = (l ++ [r]).getD (t + 1) 0 := by
  rcases Nat.lt_or_ge t (l.length - 1) with h1 | h1
  · rw [List.getD_append _ _ _ _ (by simp; omega)]
    rw [getD_tail_q]
    rw [List.getD_append _ _ _ _ (by omega)]
  · have ht : t = l.length - 1 := by omega
    rw [List.getD_append_right _ _ _ _ (by simp; omega)]
    rw [List.getD_append_right _ _ _ _ (by omega)]
    have e1 : t - (l.drop 1).length = 0 := by simp; omega
    have e2 : t + 1 - l.length = 0 := by omega
    rw [e1, e2]

/- ---------------------------------------------------------------- -/
/- Correction engine: vtrace_base / vtrace (train.py 205-273)        -/
/- ---------------------------------------------------------------- -/

/-- torch.clamp(rhos, 0, 1.0) of vtrace_base (train.py 217-218); both
clip_rho_threshold and clip_c_threshold are 1.0 (train.py 209). -/
def clip01 (x : ℚ) : ℚ := min (max x 0) 1

/-- clipped_rhos = torch.clamp(rhos, 0, clip_rho_threshold) applied along the
time axis (train.py 217); cs (train.py 218) is the same expression because
both thresholds equal 1.0. -/
def clipped_rhos_of (rhos : List ℚ) : List ℚ := rhos.map clip01

/-- Selector args['return'] of vtrace() (train.py 241, 245, 260). -/
inductive ReturnEstimator
  | MC
  | TD0
  | TDLAMBDA

/-- The backward deque recursion of the TD0 branch (train.py 250-252):
vs_minus_v_xs = deque([deltas[-1]]); for i in range(time_length - 2, -1, -1):
vs_minus_v_xs.appendleft(deltas[i] + cs[i] * vs_minus_v_xs[0]). -/
def td0_backward : List ℚ → List ℚ → List ℚ
  | [], _ => []
  | [d], _ => [d]
  | d :: d2 :: ds, c :: cs =>
    (d + c * (td0_backward (d2 :: ds) cs).headD 0) :: td0_backward (d2 :: ds) cs
  | d :: d2 :: ds, [] => d :: d2 :: ds

/-- The backward deque recursion of the TDLAMBDA branch (train.py 262-264):
lambda_returns = deque([returns[-1]]); for i in range(time_length - 1, 0, -1):
lambda_returns.appendleft((1 - lmb) * values_nograd[i] + lmb * lambda_returns[0]). -/
def tdlambda_backward (lmb ret : ℚ) : List ℚ → List ℚ
  | [] => []
  | [_] => [ret]
  | _ :: v2 :: vs =>
    ((1 - lmb) * v2 + lmb * (tdlambda_backward lmb ret (v2 :: vs)).headD 0)
      :: tdlambda_backward lmb ret (v2 :: vs)

/-- torch.cat([xs[1:], returns]) of the TD0 branch (train.py 246 and 258);
returns has time dimension 1, so along the time axis the concatenation is
the one-step shift with the final return appended. -/
def cat_shift (xs : List ℚ) (ret : ℚ) : List ℚ := xs.drop 1 ++ [ret]

/-- deltas = clipped_rhos * (values_t_plus_1 - values_nograd)
(train.py 246-247). -/
def td0_deltas (rhos values : List ℚ) (ret : ℚ) : List ℚ :=
  List.zipWith (fun r dv => r * dv) (clipped_rhos_of rhos)
    (List.zipWith (fun a b => a - b) (cat_shift values ret) values)

/-- TD0 branch value targets (train.py 246-257): vs = vs_minus_v_xs +
values_nograd; value_targets = vs. -/
def td0_targets (rhos values : List ℚ) (ret : ℚ) : List ℚ :=
  List.zipWith (fun a b => a + b)
    (td0_backward (td0_deltas rhos values ret) (clipped_rhos_of rhos))
    values

/-- TD0 branch advantages (train.py 258-259): vs_t_plus_1 =
torch.cat([vs[1:], returns]); advantages = clipped_rhos *
(vs_t_plus_1 - values_nograd). -/
def td0_advantages (rhos values : List ℚ) (ret : ℚ) : List ℚ :=
  List.zipWith (fun r dv => r * dv) (clipped_rhos_of rhos)
    (List.zipWith (fun a b => a - b)
      (cat_shift (td0_targets rhos values ret) ret) values)

/-- TDLAMBDA branch value targets (train.py 261-267) with lmb = 0.7. -/
def tdlambda_targets (values : List ℚ) (ret : ℚ) : List ℚ :=
  tdlambda_backward (7 / 10) ret values

/-- TDLAMBDA branch advantages (train.py 268): advantages = clipped_rhos *
(value_targets - values_nograd). -/
def tdlambda_advantages (rhos values : List ℚ) (ret : ℚ) : List ℚ :=
  List.zipWith (fun r dv => r * dv) (clipped_rhos_of rhos)
    (List.zipWith (fun a b => a - b) (tdlambda_targets values ret) values)

/-- vtrace() return-estimator dispatch (train.py 241-268), producing
(value_targets, advantages) along the time axis.  The MC branch (train.py
241-244) broadcasts the final return and uses advantages = clipped_rhos *
(returns - values_nograd). -/
def vtrace_outputs : ReturnEstimator → List ℚ → List ℚ → ℚ → List ℚ × List ℚ
  | ReturnEstimator.MC, rhos, values, ret =>
    (List.replicate values.length ret,
      List.zipWith (fun r v => r * (ret - v)) (clipped_rhos_of rhos) values)
  | ReturnEstimator.TD0, rhos, values, ret =>
    (td0_targets rhos values ret, td0_advantages rhos values ret)
  | ReturnEstimator.TDLAMBDA, rhos, values, ret =>
    (tdlambda_targets values ret, tdlambda_advantages rhos values ret)

theorem td0_backward_length (ds cs : List ℚ) :
    (td0_backward ds cs).length = ds.length := by
  induction ds generalizing cs with
  | nil => simp [td0_backward]
  | cons d ds ih =>
    cases ds with
    | nil => cases cs <;> simp [td0_backward]
    | cons d2 ds2 =>
      cases cs with
      | nil => simp [td0_backward]
      | cons c cs2 => simp [td0_backward, ih]

theorem td0_backward_last (ds cs : List ℚ) :
    (td0_backward ds cs).getD (ds.length - 1) 0 = ds.getD (ds.length - 1) 0 := by
  induction ds generalizing cs with
  | nil => simp [td0_backward]
  | cons d ds ih =>
    cases ds with
    | nil => cases cs <;> simp [td0_backward]
    | cons d2 ds2 =>
      cases cs with
      | nil => simp [td0_backward]
      | cons c cs2 =>
        simp only [td0_backward, List.length_cons, Nat.add_sub_cancel,
          List.getD_cons_succ]
        simpa using ih cs2

theorem td0_backward_rec (ds cs : List ℚ) (hlen : cs.length = ds.length)
    (t : Nat) (ht : t + 1 < ds.length) :
    (td0_backward ds cs).getD t 0
      = ds.getD t 0 + cs.getD t 0 * (td0_backward ds cs).getD (t + 1) 0 := by
  induction ds generalizing cs t with
  | nil => simp at ht
  | cons d ds ih =>
    cases ds with
    | nil => simp at ht
    | cons d2 ds2 =>
      cases cs with
      | nil => simp at hlen
      | cons c cs2 =>
        cases t with
        | zero =>
          simp only [td0_backward, List.getD_cons_zero, List.getD_cons_succ,
            headD_eq_getD]
        | succ t =>
          simp only [td0_backward, List.getD_cons_succ]
          exact ih cs2 (by simpa using hlen) t (by simpa using ht)

theorem tdlambda_backward_length (lmb ret : ℚ) (vs : List ℚ) :
    (tdlambda_backward lmb ret vs).length = vs.length := by
  induction vs with
  | nil => simp [tdlambda_backward]
  | cons v vs ih =>
    cases vs with
    | nil => simp [tdlambda_backward]
    | cons v2 vs2 => simpa [tdlambda_backward] using ih

theorem tdlambda_backward_last (lmb ret : ℚ) (vs : List ℚ) (h : vs ≠ []) :
    (tdlambda_backward lmb ret vs).getD (vs.length - 1) 0 = ret := by
  induction vs with
  | nil => exact absurd rfl h
  | cons v vs ih =>
    cases vs with
    | nil => simp [tdlambda_backward]
    | cons v2 vs2 =>
      simp only [tdlambda_backward, List.length_cons, Nat.add_sub_cancel,
        List.getD_cons_succ]
      simpa using ih (by simp)

theorem tdlambda_backward_rec (lmb ret : ℚ) (vs : List ℚ) (t : Nat)
    (ht : t + 1 < vs.length) :
    (tdlambda_backward lmb ret vs).getD t 0
      = (1 - lmb) * vs.getD (t + 1) 0
        + lmb * (tdlambda_backward lmb ret vs).getD (t + 1) 0 := by
  induction vs generalizing t with
  | nil => simp at ht
  | cons v vs ih =>
    cases vs with
    | nil => simp at ht
    | cons v2 vs2 =>
      cases t with
      | zero =>
        simp only [tdlambda_backward, List.getD_cons_zero, List.getD_cons_succ,
          headD_eq_getD]
      | succ t =>
        simp only [tdlambda_backward, List.getD_cons_succ]
        exact ih t (by simpa using ht)

/- ---------------------------------------------------------------- -/
/- Spec-side quantities for the V-trace claims                       -/
/- ---------------------------------------------------------------- -/

/-- The clipped importance ratio rho[t] (= c[t], both thresholds 1.0). -/
def clipRho (rhos : List ℚ) (t : Nat) : ℚ := clip01 (rhos.getD t 0)

/-- value[t] for t < T, with value[T] taken to be the final return. -/
def valueAt (values : List ℚ) (ret : ℚ) (t : Nat) : ℚ :=
  (values ++ [ret]).getD t 0

/-- delta[t] = rho[t] * (value[t+1] - value[t]). -/
def deltaAt (rhos values : List ℚ) (ret : ℚ) (t : Nat) : ℚ :=
  clipRho rhos t * (valueAt values ret (t + 1) - valueAt values ret t)

/-- C1: the TD0 outputs of vtrace() satisfy the claimed backward V-trace
recursion, value-target shift and advantage formula. -/
def TD0Spec (rhos values : List ℚ) (ret : ℚ) : Prop :=
  (vtrace_outputs ReturnEstimator.TD0 rhos values ret).1.length = values.length
  ∧ (vtrace_outputs ReturnEstimator.TD0 rhos values ret).2.length = values.length
  ∧ (∀ t, clipRho rhos t ≤ 1)
  ∧ (vtrace_outputs ReturnEstimator.TD0 rhos values ret).1.getD (values.length - 1) 0
      = deltaAt rhos values ret (values.length - 1)
        + valueAt values ret (values.length - 1)
  ∧ (∀ t, t + 1 < values.length →
      (vtrace_outputs ReturnEstimator.TD0 rhos values ret).1.getD t 0
        = deltaAt rhos values ret t
          + clipRho rhos t
            * ((vtrace_outputs ReturnEstimator.TD0 rhos values ret).1.getD (t + 1) 0
                - valueAt values ret (t + 1))
          + valueAt values ret t)
  ∧ (∀ t, t + 1 < values.length →
      (vtrace_outputs ReturnEstimator.TD0 rhos values ret).2.getD t 0
        = clipRho rhos t
          * ((vtrace_outputs ReturnEstimator.TD0 rhos values ret).1.getD (t + 1) 0
              - valueAt values ret t))
  ∧ (vtrace_outputs ReturnEstimator.TD0 rhos values ret).2.getD (values.length - 1) 0
      = clipRho rhos (values.length - 1)
        * (ret - valueAt values ret (values.length - 1))

/-- C1: for every batch with time length T >= 1, under the TD0 return
estimator of vtrace() the value targets obey the backward V-trace recursion
vs[T-1] = delta[T-1] and vs[t] = delta[t] + c[t]*vs[t+1] with
delta[t] = rho[t]*(value[t+1] - value[t]), value[T] the final return and
rho, c clipped to at most 1.0; the published value target equals vs + value
and the advantage equals clipped-rho times the one-step-shifted value target
minus value. -/
theorem C1_td0_value_targets (rhos values : List ℚ) (ret : ℚ)
    (hlen : rhos.length = values.length) (hT : 1 ≤ values.length) :
    TD0Spec rhos values ret := by
  have hcr_len : (clipped_rhos_of rhos).length = values.length := by
    simp [clipped_rhos_of, hlen]
  have hcs_len : (cat_shift values ret).length = values.length := by
    simp [cat_shift]; omega
  have hd_len : (td0_deltas rhos values ret).length = values.length := by
    simp [td0_deltas, hcr_len, hcs_len]
  have hb_len : (td0_backward (td0_deltas rhos values ret)
      (clipped_rhos_of rhos)).length = values.length := by
    rw [td0_backward_length, hd_len]
  have hvt_len : (td0_targets rhos values ret).length = values.length := by
    simp [td0_targets, hb_len]
  have hadv_len : (td0_advantages rhos values ret).length = values.length := by
    simp [td0_advantages, cat_shift, hcr_len, hvt_len]
    omega
  have hval : ∀ t, t < values.length → valueAt values ret t = values.getD t 0 := by
    intro t ht
    exact List.getD_append values [ret] 0 t ht
  have hcsD : ∀ t, t < values.length →
      (cat_shift values ret).getD t 0 = valueAt values ret (t + 1) := by
    intro t ht
    exact getD_shift values ret t ht
  have hcrD : ∀ t, t < values.length →
      (clipped_rhos_of rhos).getD t 0 = clipRho rhos t := by
    intro t ht
    unfold clipped_rhos_of clipRho
    exact getD_map_q clip01 rhos t (by omega)
  have hdD : ∀ t, t < values.length →
      (td0_deltas rhos values ret).getD t 0 = deltaAt rhos values ret t := by
    intro t ht
    unfold td0_deltas
    rw [getD_zipWith_q _ _ _ t (by omega) (by simp [hcs_len]; omega)]
    rw [getD_zipWith_q _ _ _ t (by omega) ht]
    rw [hcrD t ht, hcsD t ht, ← hval t ht]
    rfl
  have hvsD : ∀ t, t < values.length →
      (td0_targets rhos values ret).getD t 0
        = (td0_backward (td0_deltas rhos values ret)
            (clipped_rhos_of rhos)).getD t 0 + values.getD t 0 := by
    intro t ht
    unfold td0_targets
    exact getD_zipWith_q _ _ _ t (by omega) ht
  unfold TD0Spec
  simp only [vtrace_outputs]
  refine ⟨hvt_len, hadv_len, ?_, ?_, ?_, ?_, ?_⟩
  · intro t
    unfold clipRho clip01
    exact min_le_right _ _
  · have hT1 : values.length - 1 < values.length := by omega
    rw [hvsD _ hT1]
    have hlast : (td0_backward (td0_deltas rhos values ret)
        (clipped_rhos_of rhos)).getD (values.length - 1) 0
        = (td0_deltas rhos values ret).getD (values.length - 1) 0 := by
      have h2 := td0_backward_last (td0_deltas rhos values ret) (clipped_rhos_of rhos)
      rwa [hd_len] at h2
    rw [hlast, hdD _ hT1, hval _ hT1]
  · intro t ht
    have ht1 : t < values.length := by omega
    rw [hvsD t ht1, hvsD (t + 1) ht]
    have hrec := td0_backward_rec (td0_deltas rhos values ret)
      (clipped_rhos_of rhos) (by rw [hcr_len, hd_len]) t (by omega)
    rw [hrec, hdD t ht1, hcrD t ht1, hval t ht1, hval (t + 1) ht]
    ring
  · intro t ht
    have ht1 : t < values.length := by omega
    unfold td0_advantages
    rw [getD_zipWith_q _ _ _ t (by omega) (by simp [cat_shift, hvt_len]; omega)]
    rw [getD_zipWith_q _ _ _ t (by simp [cat_shift]; omega) (by omega)]
    rw [hcrD t ht1]
    have hsh : (cat_shift (td0_targets rhos values ret) ret).getD t 0
        = (td0_targets rhos values ret).getD (t + 1) 0 := by
      unfold cat_shift
      rw [getD_shift _ ret t (by omega)]
      exact List.getD_append _ [ret] 0 (t + 1) (by omega)
    rw [hsh, hval t ht1]
  · have hT1 : values.length - 1 < values.length := by omega
    unfold td0_advantages
    rw [getD_zipWith_q _ _ _ _ (by omega) (by simp [cat_shift, hvt_len]; omega)]
    rw [getD_zipWith_q _ _ _ _ (by simp [cat_shift]; omega) (by omega)]
    rw [hcrD _ hT1, hval _ hT1]
    have hshl : (cat_shift (td0_targets rhos values ret) ret).getD
        (values.length - 1) 0 = ret := by
      unfold cat_shift
      rw [getD_shift _ ret _ (by omega)]
      rw [List.getD_append_right _ [ret] 0 _ (by omega)]
      have hz : values.length - 1 + 1 - (td0_targets rhos values ret).length = 0 := by
        omega
      rw [hz]
      rfl
    rw [hshl]

/-- Concrete instantiation of the TD0 claim at rhos = [1/2, 2],
values = [1, 2], final return 3. -/
theorem C1_td0_value_targets_witness :
    ([1 / 2, 2] : List ℚ).length = ([1, 2] : List ℚ).length
    ∧ 1 ≤ ([1, 2] : List ℚ).length
    ∧ TD0Spec [1 / 2, 2] [1, 2] 3 :=
  ⟨rfl, by norm_num, C1_td0_value_targets [1 / 2, 2] [1, 2] 3 rfl (by norm_num)⟩

/-- C2 as amended: the TDLAMBDA outputs of vtrace() with lambda = 0.7 obey
target[T-1] = return and, for t from T-2 down to 0,
target[t] = (1 - lambda) * value[t+1] + lambda * target[t+1]; the advantage
is clipped-rho times (target - value). -/
def TDLambdaSpec (rhos values : List ℚ) (ret : ℚ) : Prop :=
  (vtrace_outputs ReturnEstimator.TDLAMBDA rhos values ret).1.length = values.length
  ∧ (vtrace_outputs ReturnEstimator.TDLAMBDA rhos values ret).2.length = values.length
  ∧ (vtrace_outputs ReturnEstimator.TDLAMBDA rhos values ret).1.getD
      (values.length - 1) 0 = ret
  ∧ (∀ t, t + 1 < values.length →
      (vtrace_outputs ReturnEstimator.TDLAMBDA rhos values ret).1.getD t 0
        = (1 - 7 / 10) * values.getD (t + 1) 0
          + (7 / 10)
            * (vtrace_outputs ReturnEstimator.TDLAMBDA rhos values ret).1.getD
                (t + 1) 0)
  ∧ (∀ t, t < values.length →
      (vtrace_outputs ReturnEstimator.TDLAMBDA rhos values ret).2.getD t 0
        = clipRho rhos t
          * ((vtrace_outputs ReturnEstimator.TDLAMBDA rhos values ret).1.getD t 0
              - values.getD t 0))

/-- C2, counterexample to the claim as stated: with values = [0, 1] and
final return 0, the code computes target[0] = 3/10 whereas the claimed
recursion target[0] = (1 - lambda) * value[0] + lambda * target[1] yields 0. -/
theorem C2_tdlambda_counterexample :
    ¬ ((vtrace_outputs ReturnEstimator.TDLAMBDA [1, 1] [0, 1] 0).1.getD 0 0
        = (1 - 7 / 10) * (([0, 1] : List ℚ).getD 0 0)
          + (7 / 10)
            * (vtrace_outputs ReturnEstimator.TDLAMBDA [1, 1] [0, 1] 0).1.getD 1 0) := by
  norm_num [vtrace_outputs, tdlambda_targets, tdlambda_backward]

/-- C2 as amended, proved: the TDLAMBDA recursion of vtrace() bootstraps from
value[t+1], not value[t]. -/
theorem C2_tdlambda_amended (rhos values : List ℚ) (ret : ℚ)
    (hlen : rhos.length = values.length) (hT : 1 ≤ values.length) :
    TDLambdaSpec rhos values ret := by
  have htl_len : (tdlambda_targets values ret).length = values.length := by
    unfold tdlambda_targets
    exact tdlambda_backward_length _ _ _
  have hcr_len : (clipped_rhos_of rhos).length = values.length := by
    simp [clipped_rhos_of, hlen]
  unfold TDLambdaSpec
  simp only [vtrace_outputs]
  refine ⟨htl_len, ?_, ?_, ?_, ?_⟩
  · simp [tdlambda_advantages, hcr_len, htl_len]
  · unfold tdlambda_targets
    have hne : values ≠ [] := by
      intro h
      rw [h] at hT
      simp at hT
    exact tdlambda_backward_last (7 / 10) ret values hne
  · intro t ht
    unfold tdlambda_targets
    exact tdlambda_backward_rec (7 / 10) ret values t ht
  · intro t ht
    unfold tdlambda_advantages
    rw [getD_zipWith_q _ _ _ t (by omega) (by simp [htl_len]; omega)]
    rw [getD_zipWith_q _ _ _ t (by omega) ht]
    unfold clipped_rhos_of clipRho
    rw [getD_map_q clip01 rhos t (by omega)]

/-- Concrete instantiation of the amended TDLAMBDA claim at rhos = [1/2, 2],
values = [1, 2], final return 3. -/
theorem C2_tdlambda_amended_witness :
    ([1 / 2, 2] : List ℚ).length = ([1, 2] : List ℚ).length
    ∧ 1 ≤ ([1, 2] : List ℚ).length
    ∧ TDLambdaSpec [1 / 2, 2] [1, 2] 3 :=
  ⟨rfl, by norm_num, C2_tdlambda_amended [1 / 2, 2] [1, 2] 3 rfl (by norm_num)⟩

/- ---------------------------------------------------------------- -/
/- Coordinator model-fetch handler (train.py 554-565)                -/
/- ---------------------------------------------------------------- -/

/-- State visible to the model-fetch branch of Learner.server():
model_era and model (the in-memory current snapshot), persisted model files
(torch.load by era; none models a raised load error), and the freshly
constructed model_class instance that the local variable holds after
model = self.model_class(self.env, self.args). -/
structure FetchContext (M : Type) where
  model_era : Nat
  model : M
  persisted : Nat → Option M
  fresh : M

/-- The req == 'model' branch of Learner.server() (train.py 554-565) for a
single requested model_id: if model_id == self.model_era the in-memory model
is sent; otherwise a fresh model_class instance is constructed and
load_state_dict(torch.load(...)) is attempted, and on failure the bare
except passes, leaving the freshly constructed instance in the local
variable that is appended to send_data. -/
def fetch_model {M : Type} (ctx : FetchContext M) (model_id : Nat) : M :=
  if model_id = ctx.model_era then ctx.model
  else
    match ctx.persisted model_id with
    | some m => m
    | none => ctx.fresh

/-- C3: the claim (and the comment at train.py 563) says a failed load falls
back to the current snapshot; the code instead replies with the freshly
constructed, untrained model_class instance.  Evaluated at current era 1,
current model 5, no persisted snapshot, fresh instance 0: the fetch of era 0
returns the fresh instance and not the current snapshot, while a fetch of
the current era does return the current snapshot. -/
theorem C3_fetch_fallback_divergence :
    fetch_model (⟨1, 5, fun _ => none, 0⟩ : FetchContext Nat) 0 =
      (⟨1, 5, fun _ => none, 0⟩ : FetchContext Nat).fresh
    ∧ fetch_model (⟨1, 5, fun _ => none, 0⟩ : FetchContext Nat) 0 ≠
      (⟨1, 5, fun _ => none, 0⟩ : FetchContext Nat).model
    ∧ fetch_model (⟨1, 5, fun _ => none, 0⟩ : FetchContext Nat) 1 =
      (⟨1, 5, fun _ => none, 0⟩ : FetchContext Nat).model := by
  refine ⟨rfl, ?_, rfl⟩
  decide

/- ---------------------------------------------------------------- -/
/- Episode store sampling: Batcher.select_episode (train.py 308-313) -/
/- ---------------------------------------------------------------- -/

/-- The range of random.randrange in select_episode (train.py 310):
min(len(self.episodes), self.args['maximum_episodes']). -/
def select_episode_range (num_episodes maximum_episodes : Nat) : Nat :=
  min num_episodes maximum_episodes

/-- accept_rate = 1 - (len(self.episodes) - 1 - ep_idx) / maximum_episodes
(train.py 311). -/
def accept_rate (num_episodes maximum_episodes ep_idx : Nat) : ℚ :=
  1 - ((num_episodes : ℚ) - 1 - (ep_idx : ℚ)) / (maximum_episodes : ℚ)

/-- Probability that random.random() < accept_rate for a uniform draw on
[0, 1): the length of [0, accept_rate) intersected with [0, 1). -/
def accept_prob (num_episodes maximum_episodes ep_idx : Nat) : ℚ :=
  min (max (accept_rate num_episodes maximum_episodes ep_idx) 0) 1

/-- C4: for a store of size N with 1 <= N <= maximum_episodes, the drawn
index is uniform on 0..N-1 (the randrange bound is N), each index i is
accepted with probability exactly 1 - (N-1-i)/maximum_episodes, and the
newest index N-1 is accepted with probability 1 on any single draw. -/
theorem C4_recency_sampling (N maxE i : Nat)
    (h1 : 1 ≤ N) (h2 : N ≤ maxE) (hi : i < N) :
    select_episode_range N maxE = N
    ∧ accept_prob N maxE i = accept_rate N maxE i
    ∧ accept_rate N maxE (N - 1) = 1
    ∧ (∀ u : ℚ, 0 ≤ u → u < 1 → u < accept_rate N maxE (N - 1)) := by
  have hmax : (0 : ℚ) < (maxE : ℚ) := by
    have : 1 ≤ maxE := le_trans h1 h2
    exact_mod_cast Nat.lt_of_lt_of_le Nat.zero_lt_one this
  have hiN : (i : ℚ) + 1 ≤ (N : ℚ) := by exact_mod_cast hi
  have hNmax : (N : ℚ) ≤ (maxE : ℚ) := by exact_mod_cast h2
  have hnum0 : (0 : ℚ) ≤ (N : ℚ) - 1 - (i : ℚ) := by linarith
  have hnum1 : (N : ℚ) - 1 - (i : ℚ) ≤ (maxE : ℚ) := by
    have hi0 : (0 : ℚ) ≤ (i : ℚ) := by positivity
    linarith
  have hq0 : (0 : ℚ) ≤ ((N : ℚ) - 1 - (i : ℚ)) / (maxE : ℚ) :=
    div_nonneg hnum0 (le_of_lt hmax)
  have hq1 : ((N : ℚ) - 1 - (i : ℚ)) / (maxE : ℚ) ≤ 1 :=
    (div_le_one hmax).mpr hnum1
  have hrate1 : accept_rate N maxE (N - 1) = 1 := by
    unfold accept_rate
    rw [Nat.cast_sub h1]
    push_cast
    have hz : (N : ℚ) - 1 - ((N : ℚ) - 1) = 0 := by ring
    rw [hz, zero_div, sub_zero]
  refine ⟨min_eq_left h2, ?_, hrate1, ?_⟩
  · unfold accept_prob accept_rate
    rw [max_eq_left (by linarith), min_eq_left (by linarith)]
  · intro u hu0 hu1
    rw [hrate1]
    exact hu1

/-- Concrete instantiation of the recency-sampling claim at
N = 3, maximum_episodes = 5, drawn index 1. -/
theorem C4_recency_sampling_witness :
    1 ≤ 3 ∧ 3 ≤ 5 ∧ 1 < 3
    ∧ (select_episode_range 3 5 = 3
      ∧ accept_prob 3 5 1 = accept_rate 3 5 1
      ∧ accept_rate 3 5 (3 - 1) = 1
      ∧ (∀ u : ℚ, 0 ≤ u → u < 1 → u < accept_rate 3 5 (3 - 1))) :=
  ⟨by norm_num, by norm_num, by norm_num,
    C4_recency_sampling 3 5 1 (by norm_num) (by norm_num) (by norm_num)⟩

/- ---------------------------------------------------------------- -/
/- Episode store admission: Learner.feed_episodes (train.py 469-473) -/
/- ---------------------------------------------------------------- -/

/-- The eviction loop of feed_episodes (train.py 472-473):
while len(self.trainer.episodes) > self.args['maximum_episodes']:
self.trainer.episodes.popleft(). -/
def evict_loop {α : Type} (maximum_episodes : Nat) : List α → List α
  | [] => []
  | e :: rest =>
    if rest.length + 1 > maximum_episodes then evict_loop maximum_episodes rest
    else e :: rest

/-- Learner.feed_episodes (train.py 469-473): extend the store with the
non-null submitted episodes, then evict from the oldest end while over the
bound. -/
def feed_episodes {α : Type} (store : List α) (episodes : List (Option α))
    (maximum_episodes : Nat) : List α :=
  evict_loop maximum_episodes (store ++ episodes.filterMap id)

theorem evict_loop_length_le {α : Type} (maxE : Nat) (l : List α) :
    (evict_loop maxE l).length ≤ maxE := by
  induction l with
  | nil => simp [evict_loop]
  | cons e rest ih =>
    by_cases h : rest.length + 1 > maxE
    · simpa [evict_loop, h] using ih
    · simp only [evict_loop, if_neg h, List.length_cons]
      omega

theorem evict_loop_suffix {α : Type} (maxE : Nat) (l : List α) :
    (evict_loop maxE l).IsSuffix l := by
  induction l with
  | nil => simp [evict_loop]
  | cons e rest ih =>
    by_cases h : rest.length + 1 > maxE
    · simp only [evict_loop, if_pos h]
      exact ih.trans (List.suffix_cons e rest)
    · simp only [evict_loop, if_neg h]
      exact List.suffix_refl _

/-- C5: after any admit the store holds at most maximum_episodes episodes,
and what remains is a suffix of the admitted sequence (newest end), so
eviction removed episodes from the oldest end only and left the retained
newest suffix unchanged. -/
theorem C5_store_bounded {α : Type} (store : List α)
    (episodes : List (Option α)) (maxE : Nat) :
    (feed_episodes store episodes maxE).length ≤ maxE
    ∧ (feed_episodes store episodes maxE).IsSuffix
        (store ++ episodes.filterMap id) :=
  ⟨evict_loop_length_le maxE (store ++ episodes.filterMap id),
    evict_loop_suffix maxE (store ++ episodes.filterMap id)⟩

/- ---------------------------------------------------------------- -/
/- Model era and persistence: Learner.update_model (train.py 461-467) -/
/- ---------------------------------------------------------------- -/

/-- Learner state touched by update_model: the era counter, the current
model, and the persisted snapshot files keyed by era
(torch.save to models/<era>.pth; nothing in train.py ever deletes one). -/
structure LearnerModelState (M : Type) where
  model_era : Nat
  model : M
  saved : List (Nat × M)

/-- Learner.update_model (train.py 461-467): self.model_era += 1;
self.model = model; torch.save(model.state_dict(),
self.model_path(self.model_era)). -/
def update_model {M : Type} (st : LearnerModelState M) (m : M) :
    LearnerModelState M :=
  { model_era := st.model_era + 1
    model := m
    saved := st.saved ++ [(st.model_era + 1, m)] }

/-- C7: each update produces era = previous era + 1 (hence eras are strictly
monotonically increasing across successive update() calls, as the foldl
conjunct states for any run of updates), the new snapshot is persisted keyed
by the new era, and every previously persisted era's file remains. -/
theorem C7_era_monotone {M : Type} (st : LearnerModelState M) (m : M)
    (ms : List M) :
    (update_model st m).model_era = st.model_era + 1
    ∧ st.model_era < (update_model st m).model_era
    ∧ (st.model_era + 1, m) ∈ (update_model st m).saved
    ∧ (∀ e p, (e, p) ∈ st.saved → (e, p) ∈ (update_model st m).saved)
    ∧ (ms.foldl update_model st).model_era = st.model_era + ms.length := by
  refine ⟨rfl, by simp [update_model], by simp [update_model], ?_, ?_⟩
  · intro e p hep
    simp [update_model, hep]
  · induction ms generalizing st with
    | nil => simp
    | cons m2 ms ih =>
      simp only [List.foldl_cons, List.length_cons]
      rw [ih (update_model st m2)]
      simp [update_model]
      omega

/- ---------------------------------------------------------------- -/
/- Win-rate reporting: Learner.update (train.py 486-498)             -/
/- ---------------------------------------------------------------- -/

/-- The accumulation loop of Learner.update() (train.py 494-497) over the
outcome histogram: n, win = 0, 0.0; for r, cnt in results.items():
n += cnt; win += (r + 1) / 2 * cnt.  The result pair is (n, win). -/
def win_rate_loop (results : List (ℤ × ℕ)) : ℚ × ℚ :=
  results.foldl
    (fun nw rc => (nw.1 + (rc.2 : ℚ), nw.2 + ((rc.1 : ℚ) + 1) / 2 * (rc.2 : ℚ)))
    (0, 0)

/-- The reported win rate win / n (train.py 498). -/
def win_rate (results : List (ℤ × ℕ)) : ℚ :=
  (win_rate_loop results).2 / (win_rate_loop results).1

/-- Modelled from the spec: the count-weighted mean of (outcome + 1) / 2. -/
def win_rate_spec (results : List (ℤ × ℕ)) : ℚ :=
  ((results.map (fun rc => ((rc.1 : ℚ) + 1) / 2 * (rc.2 : ℚ))).sum)
    / ((results.map (fun rc => ((rc.2 : ℕ) : ℚ))).sum)

theorem win_rate_loop_general (results : List (ℤ × ℕ)) (a b : ℚ) :
    results.foldl
      (fun nw rc => (nw.1 + (rc.2 : ℚ), nw.2 + ((rc.1 : ℚ) + 1) / 2 * (rc.2 : ℚ)))
      (a, b)
    = (a + (results.map (fun rc => ((rc.2 : ℕ) : ℚ))).sum,
       b + (results.map (fun rc => ((rc.1 : ℚ) + 1) / 2 * (rc.2 : ℚ))).sum) := by
  induction results generalizing a b with
  | nil => simp
  | cons rc rest ih =>
    simp only [List.foldl_cons, List.map_cons, List.sum_cons]
    rw [ih]
    simp only [Prod.mk.injEq]
    constructor <;> ring

/-- C8: the reported win rate is the count-weighted mean of (outcome + 1)/2,
and the histogram mapping +1 to 3 and -1 to 1 yields 0.75. -/
theorem C8_win_rate (results : List (ℤ × ℕ)) (_hne : results ≠ []) :
    win_rate results = win_rate_spec results
    ∧ win_rate [(1, 3), (-1, 1)] = 3 / 4 := by
  constructor
  · unfold win_rate win_rate_spec win_rate_loop
    rw [win_rate_loop_general]
    simp
  · unfold win_rate win_rate_loop
    norm_num

/-- Concrete instantiation of the win-rate claim at the histogram
mapping +1 to 3 and -1 to 1. -/
theorem C8_win_rate_witness :
    ([(1, 3), (-1, 1)] : List (ℤ × ℕ)) ≠ []
    ∧ (win_rate [(1, 3), (-1, 1)] = win_rate_spec [(1, 3), (-1, 1)]
      ∧ win_rate [(1, 3), (-1, 1)] = 3 / 4) :=
  ⟨by simp, C8_win_rate [(1, 3), (-1, 1)] (by simp)⟩

/- ---------------------------------------------------------------- -/
/- Era advance without training: Trainer.update (train.py 341-350)   -/
/- and Learner.update (train.py 486-502)                             -/
/- ---------------------------------------------------------------- -/

/-- Trainer.update (train.py 341-350): if
len(self.episodes) < self.args['minimum_episodes'] it returns (None, 0)
immediately; otherwise it waits for and returns the trained snapshot. -/
def trainer_update {M : Type} (num_episodes minimum_episodes : Nat)
    (trained : M × Nat) : Option M × Nat :=
  if num_episodes < minimum_episodes then (none, 0)
  else (some trained.1, trained.2)

/-- The tail of Learner.update (train.py 499-502): model, steps =
self.trainer.update(); if model is None: model = self.model;
self.update_model(model, steps). -/
def learner_update {M : Type} (st : LearnerModelState M)
    (num_episodes minimum_episodes : Nat) (trained : M × Nat) :
    LearnerModelState M :=
  update_model st ((trainer_update num_episodes minimum_episodes trained).1.getD st.model)

/-- C10: when the store holds fewer than minimum_episodes episodes,
Trainer.update returns (None, 0) immediately, yet Learner.update still
increments the era and persists the unchanged current model under the new
era. -/
theorem C10_era_advance_without_training {M : Type} (st : LearnerModelState M)
    (numEp minEp : Nat) (trained : M × Nat) (h : numEp < minEp) :
    trainer_update numEp minEp trained = ((none : Option M), 0)
    ∧ (learner_update st numEp minEp trained).model_era = st.model_era + 1
    ∧ (learner_update st numEp minEp trained).model = st.model
    ∧ (st.model_era + 1, st.model) ∈ (learner_update st numEp minEp trained).saved := by
  simp [trainer_update, learner_update, update_model, h]

/-- Concrete instantiation of the era-advance-without-training claim:
store of 1 episode, minimum 2, era 0, current model 7. -/
theorem C10_era_advance_without_training_witness :
    1 < 2
    ∧ (trainer_update 1 2 ((9 : Nat), 5) = ((none : Option Nat), 0)
      ∧ (learner_update (⟨0, 7, []⟩ : LearnerModelState Nat) 1 2 (9, 5)).model_era
          = (⟨0, 7, []⟩ : LearnerModelState Nat).model_era + 1
      ∧ (learner_update (⟨0, 7, []⟩ : LearnerModelState Nat) 1 2 (9, 5)).model
          = (⟨0, 7, []⟩ : LearnerModelState Nat).model
      ∧ ((⟨0, 7, []⟩ : LearnerModelState Nat).model_era + 1,
          (⟨0, 7, []⟩ : LearnerModelState Nat).model)
          ∈ (learner_update (⟨0, 7, []⟩ : LearnerModelState Nat) 1 2 (9, 5)).saved) :=
  ⟨by norm_num,
    C10_era_advance_without_training (⟨0, 7, []⟩ : LearnerModelState Nat) 1 2 (9, 5)
      (by norm_num)⟩

/- ---------------------------------------------------------------- -/
/- Batch windowing: make_batch (train.py 55-109)                     -/
/- ---------------------------------------------------------------- -/

/-- turn_candidates = 1 + max(0, ep_train_length - args['forward_steps'])
(train.py 61). -/
def turn_candidates (ep_train_length forward_steps : Nat) : Nat :=
  1 + max 0 (ep_train_length - forward_steps)

/-- ed = min(st + steps, len(ep['turn'])) (train.py 63). -/
def window_ed (st forward_steps ep_train_length : Nat) : Nat :=
  min (st + forward_steps) ep_train_length

/-- Row turn of np.eye(len(players)) (train.py 86): the one-hot row of the
acting player. -/
def oneHot (P k : Nat) : List ℚ :=
  (List.range P).map (fun j => if j = k then 1 else 0)

/-- A padding row: np.pad with constant_values=0 (train.py 102, 104). -/
def zeroRow (P : Nat) : List ℚ := List.replicate P 0

/-- tmsk = np.eye(len(players))[ep['turn'][st:ed]] (train.py 86) followed by
the zero padding of train.py 102 up to forward_steps rows. -/
def window_tmask (turns : List Nat) (P forward_steps st : Nat) : List (List ℚ) :=
  (List.range (window_ed st forward_steps turns.length - st)).map
      (fun k => oneHot P (turns.getD (st + k) 0))
    ++ List.replicate
        (forward_steps - (window_ed st forward_steps turns.length - st))
        (zeroRow P)

/-- vmsk = np.ones_like(tmsk) if args['observation'] else tmsk (train.py 88)
followed by the zero padding of train.py 104 up to forward_steps rows. -/
def window_vmask (observation : Bool) (turns : List Nat)
    (P forward_steps st : Nat) : List (List ℚ) :=
  (if observation then
      List.replicate (window_ed st forward_steps turns.length - st)
        (List.replicate P 1)
    else
      (List.range (window_ed st forward_steps turns.length - st)).map
        (fun k => oneHot P (turns.getD (st + k) 0)))
    ++ List.replicate
        (forward_steps - (window_ed st forward_steps turns.length - st))
        (zeroRow P)

/-- C6: the start-turn candidate count is 1 + max(0, L - forward_steps), the
assembled window has exactly forward_steps time steps, every tail step past
the real window is a padding row on which both the turn mask and the value
mask are zero, and every real step's turn-mask row is the one-hot row of the
acting player. -/
def WindowSpec (observation : Bool) (turns : List Nat)
    (P forward_steps st : Nat) : Prop :=
  ((turn_candidates turns.length forward_steps : ℤ)
      = 1 + max 0 ((turns.length : ℤ) - (forward_steps : ℤ)))
  ∧ (window_tmask turns P forward_steps st).length = forward_steps
  ∧ (window_vmask observation turns P forward_steps st).length = forward_steps
  ∧ (∀ j, window_ed st forward_steps turns.length - st ≤ j → j < forward_steps →
      (window_tmask turns P forward_steps st).getD j [] = zeroRow P
      ∧ (window_vmask observation turns P forward_steps st).getD j [] = zeroRow P)
  ∧ (∀ j, j < window_ed st forward_steps turns.length - st →
      (window_tmask turns P forward_steps st).getD j []
        = oneHot P (turns.getD (st + j) 0))

/-- C6: windowing and padding of make_batch. -/
theorem C6_batch_windowing (observation : Bool) (turns : List Nat)
    (P forward_steps st : Nat) (_hT : 1 ≤ turns.length)
    (_hst : st < turn_candidates turns.length forward_steps) :
    WindowSpec observation turns P forward_steps st := by
  have hn : window_ed st forward_steps turns.length - st ≤ forward_steps := by
    unfold window_ed
    omega
  have hmap_len : ((List.range (window_ed st forward_steps turns.length - st)).map
      (fun k => oneHot P (turns.getD (st + k) 0))).length
      = window_ed st forward_steps turns.length - st := by
    simp
  refine ⟨?_, ?_, ?_, ?_, ?_⟩
  · unfold turn_candidates
    omega
  · unfold window_tmask
    simp only [List.length_append, List.length_map, List.length_range,
      List.length_replicate]
    omega
  · unfold window_vmask
    cases observation <;>
      simp only [if_true, if_false, Bool.false_eq_true, List.length_append,
        List.length_map, List.length_range, List.length_replicate] <;>
      omega
  · intro j hj1 hj2
    constructor
    · unfold window_tmask
      rw [List.getD_append_right _ _ _ _ (by rw [hmap_len]; exact hj1)]
      rw [hmap_len]
      exact getD_replicate_gen (zeroRow P) [] _ _ (by omega)
    · unfold window_vmask
      cases observation
      · simp only [Bool.false_eq_true, if_false]
        rw [List.getD_append_right _ _ _ _ (by rw [hmap_len]; exact hj1)]
        rw [hmap_len]
        exact getD_replicate_gen (zeroRow P) [] _ _ (by omega)
      · simp only [if_true]
        rw [List.getD_append_right _ _ _ _ (by simp; omega)]
        rw [List.length_replicate]
        exact getD_replicate_gen (zeroRow P) [] _ _ (by omega)
  · intro j hj
    unfold window_tmask
    rw [List.getD_append _ _ _ _ (by rw [hmap_len]; exact hj)]
    exact getD_map_range [] _ _ j hj

/-- Concrete instantiation of the windowing claim: a 2-step episode with
turns [0, 1], 2 players, forward_steps = 4, start 0, full-observation mode. -/
theorem C6_batch_windowing_witness :
    1 ≤ ([0, 1] : List Nat).length
    ∧ 0 < turn_candidates ([0, 1] : List Nat).length 4
    ∧ WindowSpec true [0, 1] 2 4 0 :=
  ⟨by norm_num, by norm_num [turn_candidates],
    C6_batch_windowing true [0, 1] 2 4 0 (by norm_num)
      (by norm_num [turn_candidates])⟩

/- ---------------------------------------------------------------- -/
/- Entry/registration service: Learner.entry_server (train.py 573-598) -/
/- ---------------------------------------------------------------- -/

/-- State of the entry loop (train.py 577): total_gids, total_eids,
worker_cnt. -/
structure EntryState where
  total_gids : List Nat
  total_eids : List Nat
  worker_cnt : Nat

/-- One iteration of the per-process-slot loop of entry_server
(train.py 585-592): if len(total_gids) * eworker_rate < len(total_eids) - 1
the slot becomes a generator, else an evaluator; either way the current
worker_cnt is issued as its id and worker_cnt is incremented.  The Bool
result records whether the slot was assigned the generator role. -/
def entry_step (eworker_rate : ℚ) (st : EntryState) : EntryState × Bool :=
  if (st.total_gids.length : ℚ) * eworker_rate < (st.total_eids.length : ℚ) - 1 then
    (⟨st.total_gids ++ [st.worker_cnt], st.total_eids, st.worker_cnt + 1⟩, true)
  else
    (⟨st.total_gids, st.total_eids ++ [st.worker_cnt], st.worker_cnt + 1⟩, false)

/-- C9, counterexample to the claim as stated: with one generator, one
evaluator and rate 1/2, the evaluator/generator ratio is 1 > 1/2, so the
claim predicts the generator role, but entry_server tests
1 * 1/2 < 1 - 1 = 0, which is false, and assigns the evaluator role. -/
theorem C9_entry_role_counterexample :
    ¬ (((entry_step (1 / 2) ⟨[0], [1], 2⟩).2 = true)
        ↔ (((⟨[0], [1], 2⟩ : EntryState).total_eids.length : ℚ)
            / ((⟨[0], [1], 2⟩ : EntryState).total_gids.length : ℚ) > 1 / 2)) := by
  norm_num [entry_step]

/-- C9 as amended: a slot is assigned the generator role if and only if
generators * rate < evaluators - 1; ids are allocated consecutively (the
issued id is the current worker_cnt, which then increments), an issued id
is never reassigned or removed, and a fresh id was never issued before. -/
def EntryStepSpec (eworker_rate : ℚ) (st : EntryState) : Prop :=
  ((entry_step eworker_rate st).2 = true
    ↔ (st.total_gids.length : ℚ) * eworker_rate < (st.total_eids.length : ℚ) - 1)
  ∧ (entry_step eworker_rate st).1.worker_cnt = st.worker_cnt + 1
  ∧ (∀ i, i ∈ st.total_gids → i ∈ (entry_step eworker_rate st).1.total_gids)
  ∧ (∀ i, i ∈ st.total_eids → i ∈ (entry_step eworker_rate st).1.total_eids)
  ∧ (entry_step eworker_rate st).1.total_gids.length
      + (entry_step eworker_rate st).1.total_eids.length
      = st.total_gids.length + st.total_eids.length + 1

/-- C9 as amended, proved, together with id freshness: under the invariant
that all issued ids are below worker_cnt, the newly issued id is fresh and
the invariant is preserved. -/
theorem C9_entry_role_amended (rate : ℚ) (st : EntryState)
    (hinv : ∀ i, i ∈ st.total_gids ++ st.total_eids → i < st.worker_cnt) :
    EntryStepSpec rate st
    ∧ st.worker_cnt ∉ st.total_gids ++ st.total_eids
    ∧ (∀ i, i ∈ (entry_step rate st).1.total_gids ++ (entry_step rate st).1.total_eids
        → i < (entry_step rate st).1.worker_cnt) := by
  have hfresh : st.worker_cnt ∉ st.total_gids ++ st.total_eids := by
    intro hmem
    exact absurd (hinv _ hmem) (by omega)
  by_cases h : (st.total_gids.length : ℚ) * rate < (st.total_eids.length : ℚ) - 1
  · refine ⟨⟨by simp [entry_step, h], by simp [entry_step, h], ?_, ?_, ?_⟩,
      hfresh, ?_⟩
    · intro i hi
      simp [entry_step, h]
      exact Or.inl hi
    · intro i hi
      simp [entry_step, h, hi]
    · simp [entry_step, h]
      omega
    · intro i hi
      simp only [entry_step, if_pos h, List.mem_append, List.mem_singleton] at hi
      rcases hi with (hi | hi) | hi
      · have := hinv i (by simp [hi])
        simp [entry_step, h]
        omega
      · simp [entry_step, h, hi]
      · have := hinv i (by simp [hi])
        simp [entry_step, h]
        omega
  · refine ⟨⟨by simp [entry_step, h], by simp [entry_step, h], ?_, ?_, ?_⟩,
      hfresh, ?_⟩
    · intro i hi
      simp [entry_step, h, hi]
    · intro i hi
      simp [entry_step, h]
      exact Or.inl hi
    · simp [entry_step, h]
      omega
    · intro i hi
      simp only [entry_step, if_neg h, List.mem_append, List.mem_singleton] at hi
      rcases hi with hi | (hi | hi)
      · have := hinv i (by simp [hi])
        simp [entry_step, h]
        omega
      · have := hinv i (by simp [hi])
        simp [entry_step, h]
        omega
      · simp [entry_step, h, hi]

/-- Concrete instantiation of the amended entry-role claim at rate 1/2,
one issued generator id and one issued evaluator id. -/
theorem C9_entry_role_amended_witness :
    (∀ i, i ∈ (⟨[0], [1], 2⟩ : EntryState).total_gids
        ++ (⟨[0], [1], 2⟩ : EntryState).total_eids → i < 2)
    ∧ (EntryStepSpec (1 / 2) ⟨[0], [1], 2⟩
      ∧ (⟨[0], [1], 2⟩ : EntryState).worker_cnt
          ∉ (⟨[0], [1], 2⟩ : EntryState).total_gids
            ++ (⟨[0], [1], 2⟩ : EntryState).total_eids
      ∧ (∀ i, i ∈ (entry_step (1 / 2) ⟨[0], [1], 2⟩).1.total_gids
            ++ (entry_step (1 / 2) ⟨[0], [1], 2⟩).1.total_eids
          → i < (entry_step (1 / 2) ⟨[0], [1], 2⟩).1.worker_cnt)) :=
  ⟨by decide, C9_entry_role_amended (1 / 2) ⟨[0], [1], 2⟩ (by decide)⟩

end HandyRL
